import Mathlib

/-!
Verification development for the agent-zero tool/extension caching and
execution layer.

Embedded sources:
* `python/helpers/tool_cache.py` — `ToolCache` (TTL + LRU class cache)
* `python/helpers/extension_cache.py` — `ExtensionCache` (same algorithm,
  list-valued entries)
* `python/helpers/optimized_tool_execution.py` — `OptimizedToolExecutor`
* `python/helpers/extract_tools.py` — `load_classes_from_file`
* `python/helpers/tool.py` — `Tool.before_execution` validation behaviour

Modelling conventions: Python `time.time()` floats become rationals `ℚ`;
each distinct `time.time()` call site reads a fresh value from an abstract
clock.  Python dicts (which preserve insertion order) become association
lists with unique keys.  Dynamically loaded classes become a type
parameter; the filesystem resolver becomes an explicit parameter carrying
the value it would return.  Code that can raise returns `Option`.
-/

namespace AgentZero

/-- Python dict lookup `d[k]` / `k in d` on an insertion-ordered dict,
modelled as first-binding-wins association list lookup. -/
def alookup {γ : Type} : List (String × γ) → String → Option γ
  | [], _ => none
  | p :: rest, k => if p.1 = k then some p.2 else alookup rest k

/-- Python `del d[k]`: remove the binding for `k` (keys are unique in all
reachable states, so removing every occurrence coincides with dict
deletion). -/
def eraseKey {γ : Type} : List (String × γ) → String → List (String × γ)
  | [], _ => []
  | p :: rest, k => if p.1 = k then eraseKey rest k else p :: eraseKey rest k

/-- Python `d[k] = v`: replace in place if the key exists (keeping its
position in iteration order, as Python 3.7+ dicts do), else append. -/
def aset {γ : Type} : List (String × γ) → String → γ → List (String × γ)
  | [], k, v => [(k, v)]
  | p :: rest, k, v => if p.1 = k then (k, v) :: rest else p :: aset rest k v

/-- Entry type `ToolCacheEntry` / `ExtensionCacheEntry`: one cached value plus the
recency metadata (`tool_class`/`classes` becomes the `value` field of type
`α`). -/
structure CacheEntry (α : Type) where
  value : α
  last_accessed : ℚ
  access_count : ℕ
  file_path : String
  file_mtime : ℚ
  deriving DecidableEq

/-- The shared state of `ToolCache` and `ExtensionCache`: the entry dict in
insertion order, the capacity and TTL configuration, and the four stats
counters. -/
structure Cache (α : Type) where
  entries : List (String × CacheEntry α)
  max_size : ℕ
  ttl_seconds : ℚ
  hits : ℕ
  misses : ℕ
  evictions : ℕ
  loads : ℕ
  deriving DecidableEq

/-- Fold underlying Python's `min(keys, key=lambda k: last_accessed)`: scan
in iteration order keeping the current best `(key, last_accessed)` pair and
replace it only on a strictly smaller timestamp, so the first minimum
wins. -/
def oldestAux {α : Type} : (String × ℚ) → List (String × CacheEntry α) → String × ℚ
  | b, [] => b
  | b, p :: rest =>
    if p.2.last_accessed < b.2 then oldestAux (p.1, p.2.last_accessed) rest
    else oldestAux b rest

/-- Python `min(self._cache.keys(), key=lambda k: self._cache[k].last_accessed)`;
`none` on an empty dict (where Python's `min` raises `ValueError`). -/
def oldestKey {α : Type} : List (String × CacheEntry α) → Option String
  | [] => none
  | p :: rest => some (oldestAux (p.1, p.2.last_accessed) rest).1

/-- Insertion `ToolCache._add_to_cache` / `ExtensionCache._add_to_cache`: build the
fresh entry (`access_count = 1`, `file_mtime` falling back to the current
time when `os.path.getmtime` fails), evict the least-recently-accessed
entry if `len(cache) >= max_size`, then insert.  Returns `none` exactly
where Python raises (`min` over an empty dict, reachable only with
`max_size = 0`). -/
def addToCache {α : Type} (c : Cache α) (key : String) (v : α) (now : ℚ)
    (path : String) (mtime : Option ℚ) : Option (Cache α) :=
  let entry : CacheEntry α :=
    { value := v, last_accessed := now, access_count := 1,
      file_path := path, file_mtime := mtime.getD now }
  if c.max_size ≤ c.entries.length then
    match oldestKey c.entries with
    | none => none
    | some ok =>
      some { c with entries := aset (eraseKey c.entries ok) key entry,
                    evictions := c.evictions + 1 }
  else
    some { c with entries := aset c.entries key entry }

/-- The shared miss path of `ToolCache.get_tool_class` (from line 60):
`misses += 1`, invoke the resolver (its result is the `loadResult`
parameter), and on success insert with eviction and `loads += 1`.  A
`none` resolver result is returned without caching anything. -/
def toolMiss {α : Type} (c : Cache α) (key : String) (nowAdd : ℚ)
    (loadResult : Option α) (path : String) (mtime : Option ℚ) :
    Option (Option α × Cache α) :=
  let c1 := { c with misses := c.misses + 1 }
  match loadResult with
  | none => some (none, c1)
  | some v =>
    match addToCache c1 key v nowAdd path mtime with
    | none => none
    | some c2 => some (some v, { c2 with loads := c2.loads + 1 })

/-- The entry refresh performed on a cache hit: `entry.last_accessed =
current_time; entry.access_count += 1`. -/
def refresh {α : Type} (e : CacheEntry α) (now : ℚ) : CacheEntry α :=
  { e with last_accessed := now, access_count := e.access_count + 1 }

/-- Lookup `ToolCache.get_tool_class`: on a cached key, hit iff
`now - last_accessed < ttl_seconds` (refresh and `hits += 1`), otherwise
delete the stale entry, `evictions += 1`, and fall through to the miss
path; on an absent key go straight to the miss path.  `nowCheck` is the
`time.time()` read for the TTL check, `nowAdd` the one inside
`_add_to_cache`. -/
def getToolClass {α : Type} (c : Cache α) (key : String) (nowCheck nowAdd : ℚ)
    (loadResult : Option α) (path : String) (mtime : Option ℚ) :
    Option (Option α × Cache α) :=
  match alookup c.entries key with
  | some entry =>
    if nowCheck - entry.last_accessed < c.ttl_seconds then
      some (some entry.value,
        { c with entries := aset c.entries key (refresh entry nowCheck),
                 hits := c.hits + 1 })
    else
      toolMiss { c with entries := eraseKey c.entries key,
                        evictions := c.evictions + 1 }
        key nowAdd loadResult path mtime
  | none => toolMiss c key nowAdd loadResult path mtime

/-- The miss path of `ExtensionCache.get_extensions` (from line 60): the
resolver returns a list, an empty list (Python falsy) is returned without
caching, a non-empty one is inserted with eviction and `loads += 1`. -/
def extMiss {β : Type} (c : Cache (List β)) (key : String) (nowAdd : ℚ)
    (loadResult : List β) (path : String) (mtime : Option ℚ) :
    Option (List β × Cache (List β)) :=
  let c1 := { c with misses := c.misses + 1 }
  if loadResult.isEmpty then some (loadResult, c1)
  else
    match addToCache c1 key loadResult nowAdd path mtime with
    | none => none
    | some c2 => some (loadResult, { c2 with loads := c2.loads + 1 })

/-- Lookup `ExtensionCache.get_extensions`: identical hit/TTL/stale logic to
`ToolCache.get_tool_class`, with list-valued entries and empty-list
truthiness on the miss path. -/
def getExtensions {β : Type} (c : Cache (List β)) (key : String)
    (nowCheck nowAdd : ℚ) (loadResult : List β) (path : String)
    (mtime : Option ℚ) : Option (List β × Cache (List β)) :=
  match alookup c.entries key with
  | some entry =>
    if nowCheck - entry.last_accessed < c.ttl_seconds then
      some (entry.value,
        { c with entries := aset c.entries key (refresh entry nowCheck),
                 hits := c.hits + 1 })
    else
      extMiss { c with entries := eraseKey c.entries key,
                       evictions := c.evictions + 1 }
        key nowAdd loadResult path mtime
  | none => extMiss c key nowAdd loadResult path mtime

/-- Sweep `cleanup_expired` (identical in both caches): collect the keys with
`now - last_accessed > ttl_seconds`, delete each, and count one eviction
per deleted key. -/
def cleanupExpired {α : Type} (c : Cache α) (now : ℚ) : Cache α :=
  let expired := c.entries.filter fun p =>
    decide (c.ttl_seconds < now - p.2.last_accessed)
  { c with
      entries := c.entries.filter fun p =>
        !decide (c.ttl_seconds < now - p.2.last_accessed),
      evictions := c.evictions + expired.length }

/-- The cache-key scheme of both caches:
`f"{profile}:{name}" if profile else f"default:{name}"` (an empty string is
falsy in Python, hence also maps to `default:`). -/
def cacheKey (profile : Option String) (name : String) : String :=
  match profile with
  | some p => if p = "" then "default:" ++ name else p ++ ":" ++ name
  | none => "default:" ++ name

/-- The tool source path picked in `ToolCache._add_to_cache`:
`agents/{profile}/tools/{name}.py` when a (truthy) profile is given, else
`python/tools/{name}.py`. -/
def toolFilePath (profile : Option String) (name : String) : String :=
  match profile with
  | some p =>
    if p = "" then "python/tools/" ++ name ++ ".py"
    else "agents/" ++ p ++ "/tools/" ++ name ++ ".py"
  | none => "python/tools/" ++ name ++ ".py"

/-- The extension folder path picked in `ExtensionCache._add_to_cache`:
`agents/{profile}/extensions/{point}` when a profile is given, else
`python/extensions/{point}`. -/
def extFolderPath (profile : Option String) (point : String) : String :=
  match profile with
  | some p =>
    if p = "" then "python/extensions/" ++ point
    else "agents/" ++ p ++ "/extensions/" ++ point
  | none => "python/extensions/" ++ point

/-- Record `Response` from `python/helpers/tool.py`. -/
structure Response where
  message : String
  break_loop : Bool
  deriving DecidableEq

/-- Record `ToolExecutionMetrics` from `optimized_tool_execution.py`. -/
structure ToolExecutionMetrics where
  tool_name : String
  execution_time : ℚ
  cache_hit : Bool
  extension_calls : ℕ
  intervention_calls : ℕ
  total_overhead : ℚ
  deriving DecidableEq

/-- Gate `OptimizedToolExecutor._handle_intervention_optimized`: look up
`f"{agent_name}:{tool_name}"` in the intervention throttle map; if less
than `0.1` seconds have elapsed since the recorded call, return without
touching anything; otherwise record the new timestamp and run the pause
gate.  The returned `Bool` says whether the gate check ran (the
`while paused: sleep` wait itself is real-time behaviour outside the
embedding). -/
def handleIntervention (thr : List (String × ℚ)) (agentName toolName : String)
    (now : ℚ) : Bool × List (String × ℚ) :=
  let tkey := agentName ++ ":" ++ toolName
  match alookup thr tkey with
  | some last =>
    if now - last < 1/10 then (false, thr)
    else (true, aset thr tkey now)
  | none => (true, aset thr tkey now)

/-- Observable result of one `_call_extensions_optimized` invocation:
whether the batch ran at all, the extension classes that were instantiated
and executed (each failure being isolated per extension), and the updated
throttle map and extension cache. -/
structure ExtCallResult (β : Type) where
  ran : Bool
  invoked : List β
  throttle : List (String × ℚ)
  cache : Cache (List β)
  deriving DecidableEq

/-- Batch call `OptimizedToolExecutor._call_extensions_optimized`: look up
`f"{agent_name}:{extension_point}"` in the extension throttle map; if less
than `0.05` seconds have elapsed, return immediately (the whole batch is
skipped, nothing is updated); otherwise record the timestamp, resolve the
extension classes through the extension cache, and execute each.
`nowThrottle` is the `time.time()` of the throttle check, `nowCheck` and
`nowAdd` the reads inside `get_extensions`.  `none` propagates the
cache-internal `ValueError` corner. -/
def callExtensions {β : Type} (thr : List (String × ℚ))
    (agentName point : String) (profile : Option String)
    (nowThrottle nowCheck nowAdd : ℚ) (ec : Cache (List β))
    (loadResult : List β) (mtime : Option ℚ) : Option (ExtCallResult β) :=
  let tkey := agentName ++ ":" ++ point
  let run : Option (ExtCallResult β) :=
    let thr1 := aset thr tkey nowThrottle
    match getExtensions ec (cacheKey profile point) nowCheck nowAdd loadResult
        (extFolderPath profile point) mtime with
    | none => none
    | some (classes, ec1) => some ⟨true, classes, thr1, ec1⟩
  match alookup thr tkey with
  | some last => if nowThrottle - last < 1/20 then some ⟨false, [], thr, ec⟩ else run
  | none => run

/-- The inputs of one `OptimizedToolExecutor.execute_tool` call: the call
identity, the values the external collaborators (resolver, tool hooks,
tool body, extension resolver) would produce, and the clock supplying the
successive `time.time()` reads. -/
structure ExecEnv (α β : Type) where
  agentName : String
  profile : Option String
  toolName : String
  /-- What `ToolCache._load_tool_class` returns for this name/profile. -/
  loadResult : Option α
  toolMtime : Option ℚ
  /-- Result of `tool.validate_tool().is_valid` — `before_execution` raises iff false. -/
  validationOk : Bool
  /-- Outcome of `tool.execute`: `none` means it raised. -/
  execResult : Option Response
  /-- Outcome of `tool.after_execution`: `false` means it raised. -/
  afterOk : Bool
  /-- Extension resolver results for the two extension points. -/
  beforeExtLoad : List β
  afterExtLoad : List β
  extMtime : Option ℚ
  clock : ℕ → ℚ

/-- Observable outcome of one `execute_tool` call: the returned value, the
final shared state (tool cache, extension cache, both throttle maps,
metrics log) and a trace of the side effects the claims talk about. -/
structure ExecOutcome (α β : Type) where
  response : Option Response
  toolCache : Cache α
  extCache : Cache (List β)
  interventionThrottle : List (String × ℚ)
  extensionThrottle : List (String × ℚ)
  metricsLog : List ToolExecutionMetrics
  /-- Number of `extension.execute(**kwargs)` invocations performed. -/
  extensionInvocations : ℕ
  /-- Whether `before_execution` logged a validation error to `context.log`. -/
  validationErrorLogged : Bool
  /-- The outer `except` printed `Tool execution failed`. -/
  executionErrorLogged : Bool
  /-- The `Tool '{name}' not found` message was printed. -/
  notFoundLogged : Bool
  deriving DecidableEq

/-- Pipeline `OptimizedToolExecutor.execute_tool`, steps in source order: resolve
through the tool cache (`metrics.cache_hit = True` as soon as a class is
obtained, hit or not); instantiate; throttled intervention gate; `tool.
before_execution` (raises on validation failure — caught by the outer
`except`, which returns `None` without appending metrics); intervention
gate; before-extensions batch; `tool.execute` (a raise is likewise caught);
intervention gate; after-extensions batch; `tool.after_execution`;
intervention gate; metrics computed (`overhead = elapsed - (ext_calls +
intervention_calls) * 0.001`) and appended; return the response.  Clock
indices 0–13 are the successive `time.time()` call sites. -/
def executeTool {α β : Type} (env : ExecEnv α β) (tc : Cache α)
    (ec : Cache (List β)) (ithr ethr : List (String × ℚ))
    (log : List ToolExecutionMetrics) : ExecOutcome α β :=
  let startTime := env.clock 0
  let key := cacheKey env.profile env.toolName
  let path := toolFilePath env.profile env.toolName
  match getToolClass tc key (env.clock 1) (env.clock 2) env.loadResult path
      env.toolMtime with
  | none =>
    -- cache-internal ValueError (max_size = 0 corner) caught by the outer
    -- except; unreachable under the hypotheses of every theorem below
    { response := none, toolCache := tc, extCache := ec,
      interventionThrottle := ithr, extensionThrottle := ethr,
      metricsLog := log, extensionInvocations := 0,
      validationErrorLogged := false, executionErrorLogged := true,
      notFoundLogged := false }
  | some (none, tc1) =>
    -- tool not found: print and return None, no exception, no metrics
    { response := none, toolCache := tc1, extCache := ec,
      interventionThrottle := ithr, extensionThrottle := ethr,
      metricsLog := log, extensionInvocations := 0,
      validationErrorLogged := false, executionErrorLogged := false,
      notFoundLogged := true }
  | some (some _, tc1) =>
    -- metrics.cache_hit = True (unconditionally, line 60); instantiate
    let ithr1 := (handleIntervention ithr env.agentName env.toolName (env.clock 3)).2
    if env.validationOk = false then
      -- before_execution logs the validation error and raises ValueError
      { response := none, toolCache := tc1, extCache := ec,
        interventionThrottle := ithr1, extensionThrottle := ethr,
        metricsLog := log, extensionInvocations := 0,
        validationErrorLogged := true, executionErrorLogged := true,
        notFoundLogged := false }
    else
      let ithr2 := (handleIntervention ithr1 env.agentName env.toolName (env.clock 4)).2
      match callExtensions ethr env.agentName "tool_execute_before" env.profile
          (env.clock 5) (env.clock 6) (env.clock 7) ec env.beforeExtLoad
          env.extMtime with
      | none =>
        { response := none, toolCache := tc1, extCache := ec,
          interventionThrottle := ithr2, extensionThrottle := ethr,
          metricsLog := log, extensionInvocations := 0,
          validationErrorLogged := false, executionErrorLogged := true,
          notFoundLogged := false }
      | some r1 =>
        match env.execResult with
        | none =>
          -- tool.execute raised, caught by the outer except
          { response := none, toolCache := tc1, extCache := r1.cache,
            interventionThrottle := ithr2, extensionThrottle := r1.throttle,
            metricsLog := log, extensionInvocations := r1.invoked.length,
            validationErrorLogged := false, executionErrorLogged := true,
            notFoundLogged := false }
        | some resp =>
          let ithr3 := (handleIntervention ithr2 env.agentName env.toolName (env.clock 8)).2
          match callExtensions r1.throttle env.agentName "tool_execute_after"
              env.profile (env.clock 9) (env.clock 10) (env.clock 11) r1.cache
              env.afterExtLoad env.extMtime with
          | none =>
            { response := none, toolCache := tc1, extCache := r1.cache,
              interventionThrottle := ithr3, extensionThrottle := r1.throttle,
              metricsLog := log, extensionInvocations := r1.invoked.length,
              validationErrorLogged := false, executionErrorLogged := true,
              notFoundLogged := false }
          | some r2 =>
            if env.afterOk = false then
              -- tool.after_execution raised, caught by the outer except
              { response := none, toolCache := tc1, extCache := r2.cache,
                interventionThrottle := ithr3, extensionThrottle := r2.throttle,
                metricsLog := log,
                extensionInvocations := r1.invoked.length + r2.invoked.length,
                validationErrorLogged := false, executionErrorLogged := true,
                notFoundLogged := false }
            else
              let ithr4 := (handleIntervention ithr3 env.agentName env.toolName (env.clock 12)).2
              let execTime := env.clock 13 - startTime
              let m : ToolExecutionMetrics :=
                { tool_name := env.toolName, execution_time := execTime,
                  cache_hit := true, extension_calls := 2,
                  intervention_calls := 4,
                  total_overhead := execTime - ((2 : ℚ) * (1/1000) + (4 : ℚ) * (1/1000)) }
              { response := some resp, toolCache := tc1, extCache := r2.cache,
                interventionThrottle := ithr4, extensionThrottle := r2.throttle,
                metricsLog := log ++ [m],
                extensionInvocations := r1.invoked.length + r2.invoked.length,
                validationErrorLogged := false, executionErrorLogged := false,
                notFoundLogged := false }

/-- Result shape of `OptimizedToolExecutor.get_performance_stats`. -/
inductive PerfStats where
  | noData
  | stats (totalExecutions : ℕ) (avgExecutionTime avgOverhead cacheHitRate : ℚ)
      (totalInterventionCalls totalExtensionCalls : ℕ)
      (performanceImprovement : ℚ)
  deriving DecidableEq

/-- Stats `OptimizedToolExecutor.get_performance_stats`: on an empty metrics log
report `"No metrics available"` before any averaging; otherwise the
averages, hit rate and improvement percentage computed over the log. -/
def getPerformanceStats (ms : List ToolExecutionMetrics) : PerfStats :=
  match ms with
  | [] => PerfStats.noData
  | _ =>
    let n : ℚ := ms.length
    let avgExec := (ms.map (fun m => m.execution_time)).sum / n
    let avgOv := (ms.map (fun m => m.total_overhead)).sum / n
    let hitRate := ((ms.filter (fun m => m.cache_hit)).length : ℚ) / n * 100
    PerfStats.stats ms.length avgExec avgOv hitRate
      ((ms.map (fun m => m.intervention_calls)).sum)
      ((ms.map (fun m => m.extension_calls)).sum)
      ((1 - avgOv / avgExec) * 100)

/-- A class member of a dynamically imported module, as seen by
`inspect.getmembers(module, inspect.isclass)`: its name, whether it *is*
the required base class, and whether it is a subclass of that base (the
capability marker `Tool` / `Extension`). -/
structure PyClass where
  name : String
  isBase : Bool
  subclassOfBase : Bool
  deriving DecidableEq

/-- The selection loop of `load_classes_from_file`: iterate (over the
already-reversed member list), append the first proper subclass of the
base class, and stop (`one_per_file = True`). -/
def firstSubclass : List PyClass → List PyClass
  | [] => []
  | c :: rest =>
    if c.isBase = false ∧ c.subclassOfBase = true then [c]
    else firstSubclass rest

/-- Loader `load_classes_from_file(file, base_class)`: `none` input models a
missing or unloadable source file (the exception is caught, logged and an
empty list returned); otherwise `members` is the module's class list as
returned by `inspect.getmembers` — sorted ascending by class name — and
the loop scans it in reverse. -/
def loadClassesFromFile (mod : Option (List PyClass)) : List PyClass :=
  match mod with
  | none => []
  | some members => firstSubclass members.reverse

/-- Resolver `ToolCache._load_tool_class`: with a truthy profile, try
`agents/{profile}/tools/{name}.py` first and return its selected class if
any; otherwise (or on miss) fall back to `python/tools/{name}.py`; `None`
when both fail.  `profileMod` / `defaultMod` are the two source files'
member lists (`none` = missing or unloadable). -/
def loadToolClass (profile : Option String)
    (profileMod defaultMod : Option (List PyClass)) : Option PyClass :=
  let fromProfile :=
    match profile with
    | some p => if p = "" then [] else loadClassesFromFile profileMod
    | none => []
  match fromProfile with
  | c :: _ => some c
  | [] =>
    match loadClassesFromFile defaultMod with
    | c :: _ => some c
    | [] => none

/-! ### Association-list lemmas -/

theorem alookup_eq_none_iff {γ : Type} (l : List (String × γ)) (k : String) :
    alookup l k = none ↔ ∀ p ∈ l, p.1 ≠ k := by
  induction l with
  | nil => simp [alookup]
  | cons p rest ih =>
    by_cases h : p.1 = k <;> simp [alookup, h, ih]

theorem alookup_some_mem {γ : Type} {l : List (String × γ)} {k : String}
    {v : γ} (h : alookup l k = some v) : (k, v) ∈ l := by
  induction l with
  | nil => simp [alookup] at h
  | cons p rest ih =>
    rw [List.mem_cons]
    by_cases hk : p.1 = k
    · have hv : some p.2 = some v := by rw [← h]; simp [alookup, hk]
      exact Or.inl (by rw [← hk, ← Option.some_inj.mp hv])
    · simp only [alookup, if_neg hk] at h
      exact Or.inr (ih h)

theorem mem_eraseKey {γ : Type} {l : List (String × γ)} {k : String}
    {p : String × γ} (h : p ∈ eraseKey l k) : p ∈ l := by
  induction l with
  | nil => simp [eraseKey] at h
  | cons q rest ih =>
    rw [List.mem_cons]
    by_cases hq : q.1 = k
    · simp only [eraseKey, if_pos hq] at h
      exact Or.inr (ih h)
    · simp only [eraseKey, if_neg hq] at h
      rcases List.mem_cons.mp h with h1 | h1
      · exact Or.inl h1
      · exact Or.inr (ih h1)

theorem alookup_eraseKey_self {γ : Type} (l : List (String × γ)) (k : String) :
    alookup (eraseKey l k) k = none := by
  induction l with
  | nil => simp [eraseKey, alookup]
  | cons p rest ih =>
    by_cases hp : p.1 = k
    · simpa [eraseKey, hp] using ih
    · simpa [eraseKey, alookup, hp] using ih

theorem alookup_eraseKey_of_none {γ : Type} {l : List (String × γ)}
    {k k' : String} (h : alookup l k = none) :
    alookup (eraseKey l k') k = none := by
  rw [alookup_eq_none_iff] at h ⊢
  exact fun p hp => h p (mem_eraseKey hp)

theorem eraseKey_of_not_mem {γ : Type} {l : List (String × γ)} {k : String}
    (h : k ∉ l.map Prod.fst) : eraseKey l k = l := by
  induction l with
  | nil => rfl
  | cons p rest ih =>
    simp only [List.map_cons, List.mem_cons] at h
    push_neg at h
    have hp : ¬ p.1 = k := fun hp => h.1 hp.symm
    simp [eraseKey, hp, ih h.2]

theorem eraseKey_length {γ : Type} {l : List (String × γ)} {k : String}
    (hnd : (l.map Prod.fst).Nodup) (hk : k ∈ l.map Prod.fst) :
    (eraseKey l k).length + 1 = l.length := by
  induction l with
  | nil => simp at hk
  | cons p rest ih =>
    simp only [List.map_cons, List.nodup_cons] at hnd
    by_cases hp : p.1 = k
    · have : k ∉ rest.map Prod.fst := hp ▸ hnd.1
      simp [eraseKey, hp, eraseKey_of_not_mem this]
    · simp only [List.map_cons, List.mem_cons] at hk
      rcases hk with hk | hk
      · exact absurd hk.symm hp
      · simp [eraseKey, hp, ← ih hnd.2 hk]

theorem aset_length_of_none {γ : Type} {l : List (String × γ)} {k : String}
    (v : γ) (h : alookup l k = none) :
    (aset l k v).length = l.length + 1 := by
  induction l with
  | nil => simp [aset]
  | cons p rest ih =>
    by_cases hp : p.1 = k
    · simp [alookup, hp] at h
    · simp only [alookup, if_neg hp] at h
      simp [aset, hp, ih h]

theorem alookup_aset_self {γ : Type} (l : List (String × γ)) (k : String)
    (v : γ) : alookup (aset l k v) k = some v := by
  induction l with
  | nil => simp [aset, alookup]
  | cons p rest ih =>
    by_cases hp : p.1 = k
    · simp [aset, hp, alookup]
    · simp [aset, hp, alookup, ih]

/-! ### LRU minimum-scan lemmas -/

theorem oldestAux_spec {α : Type} (l : List (String × CacheEntry α))
    (b : String × ℚ) :
    (oldestAux b l = b ∨ ∃ p ∈ l, oldestAux b l = (p.1, p.2.last_accessed)) ∧
    (oldestAux b l).2 ≤ b.2 ∧
    ∀ p ∈ l, (oldestAux b l).2 ≤ p.2.last_accessed := by
  induction l generalizing b with
  | nil => simp [oldestAux]
  | cons p rest ih =>
    by_cases h : p.2.last_accessed < b.2
    · have hsp := ih (p.1, p.2.last_accessed)
      have heq : oldestAux b (p :: rest) = oldestAux (p.1, p.2.last_accessed) rest := by
        simp [oldestAux, h]
      refine ⟨?_, ?_, ?_⟩
      · rcases hsp.1 with h1 | ⟨q, hq, h1⟩
        · exact Or.inr ⟨p, List.mem_cons_self _ _, heq ▸ h1⟩
        · exact Or.inr ⟨q, List.mem_cons_of_mem _ hq, heq ▸ h1⟩
      · rw [heq]
        exact le_trans hsp.2.1 (le_of_lt h)
      · intro q hq
        rcases List.mem_cons.mp hq with hq | hq
        · rw [heq, hq] at *
          exact hsp.2.1
        · rw [heq]
          exact hsp.2.2 q hq
    · have hsp := ih b
      have heq : oldestAux b (p :: rest) = oldestAux b rest := by
        simp [oldestAux, h]
      refine ⟨?_, ?_, ?_⟩
      · rcases hsp.1 with h1 | ⟨q, hq, h1⟩
        · exact Or.inl (heq ▸ h1)
        · exact Or.inr ⟨q, List.mem_cons_of_mem _ hq, heq ▸ h1⟩
      · rw [heq]
        exact hsp.2.1
      · intro q hq
        rcases List.mem_cons.mp hq with hq | hq
        · rw [heq, hq]
          exact le_trans hsp.2.1 (not_lt.mp h)
        · rw [heq]
          exact hsp.2.2 q hq

theorem oldestKey_spec {α : Type} (l : List (String × CacheEntry α))
    (hne : l ≠ []) :
    ∃ pr ∈ l, oldestKey l = some pr.1 ∧
      ∀ q ∈ l, pr.2.last_accessed ≤ q.2.last_accessed := by
  match l with
  | [] => exact absurd rfl hne
  | p :: rest =>
    have hsp := oldestAux_spec rest (p.1, p.2.last_accessed)
    rcases hsp.1 with h1 | ⟨q, hq, h1⟩
    · refine ⟨p, List.mem_cons_self _ _, ?_, ?_⟩
      · simp [oldestKey, h1]
      · intro q hq
        rcases List.mem_cons.mp hq with hq | hq
        · rw [hq]
        · have := hsp.2.2 q hq
          rw [h1] at this
          exact this
    · refine ⟨q, List.mem_cons_of_mem _ hq, ?_, ?_⟩
      · simp [oldestKey, h1]
      · intro r hr
        rcases List.mem_cons.mp hr with hr | hr
        · have := hsp.2.1
          rw [h1] at this
          rw [hr]
          exact this
        · have := hsp.2.2 r hr
          rw [h1] at this
          exact this

theorem addToCache_counters {α : Type} {c c' : Cache α} {key : String}
    {v : α} {now : ℚ} {path : String} {mtime : Option ℚ}
    (h : addToCache c key v now path mtime = some c') :
    c'.misses = c.misses ∧ c'.hits = c.hits := by
  simp only [addToCache] at h
  split at h
  · split at h
    · simp at h
    · simp only [Option.some_inj] at h
      subst h
      exact ⟨rfl, rfl⟩
  · simp only [Option.some_inj] at h
    subst h
    exact ⟨rfl, rfl⟩

/-! ### Claims -/

/-- Claim C1. For every cache (`ToolCache` and `ExtensionCache` both
instantiate `addToCache`, their `_add_to_cache`) and every insertion
performed by `Get` on a miss (the key is then absent, stale entries having
been deleted first), the number of entries after the insertion is at most
`max_size`; when the cache is already at capacity, exactly one entry is
evicted (entry count is preserved at `max_size` and the eviction counter
increments by one) before the new entry is inserted, and below capacity no
eviction happens. -/
theorem insertion_bounded {α : Type} (c : Cache α) (key : String) (v : α)
    (now : ℚ) (path : String) (mtime : Option ℚ)
    (hmax : 1 ≤ c.max_size) (hlen : c.entries.length ≤ c.max_size)
    (habs : alookup c.entries key = none)
    (hnd : (c.entries.map Prod.fst).Nodup) :
    ∃ c', addToCache c key v now path mtime = some c' ∧
      c'.entries.length ≤ c.max_size ∧
      (c.entries.length = c.max_size →
        c'.entries.length = c.max_size ∧ c'.evictions = c.evictions + 1) ∧
      (c.entries.length < c.max_size →
        c'.entries.length = c.entries.length + 1 ∧ c'.evictions = c.evictions) := by
  rcases lt_or_eq_of_le hlen with hlt | hfull
  · have haddeq : addToCache c key v now path mtime =
        some { c with entries := aset c.entries key ⟨v, now, 1, path, mtime.getD now⟩ } := by
      simp [addToCache, not_le.mpr hlt]
    refine ⟨_, haddeq, ?_, ?_, ?_⟩
    · show (aset c.entries key _).length ≤ c.max_size
      rw [aset_length_of_none _ habs]
      exact Nat.succ_le_of_lt hlt
    · intro h
      exact absurd h (ne_of_lt hlt)
    · intro _
      exact ⟨aset_length_of_none _ habs, rfl⟩
  · have hne : c.entries ≠ [] := by
      intro h0
      rw [h0] at hfull
      simp at hfull
      omega
    obtain ⟨pr, hpr, hok, hminl⟩ := oldestKey_spec c.entries hne
    have hkeymem : pr.1 ∈ c.entries.map Prod.fst := List.mem_map_of_mem _ hpr
    have herlen : (eraseKey c.entries pr.1).length + 1 = c.entries.length :=
      eraseKey_length hnd hkeymem
    have habs2 : alookup (eraseKey c.entries pr.1) key = none :=
      alookup_eraseKey_of_none habs
    have hcond : c.max_size ≤ c.entries.length := hfull.ge
    have haddeq : addToCache c key v now path mtime =
        some { c with
          entries := aset (eraseKey c.entries pr.1) key ⟨v, now, 1, path, mtime.getD now⟩,
          evictions := c.evictions + 1 } := by
      simp [addToCache, hcond, hok]
    refine ⟨_, haddeq, ?_, ?_, ?_⟩
    · show (aset (eraseKey c.entries pr.1) key _).length ≤ c.max_size
      rw [aset_length_of_none _ habs2, herlen, hfull]
    · intro _
      refine ⟨?_, rfl⟩
      show (aset (eraseKey c.entries pr.1) key _).length = c.max_size
      rw [aset_length_of_none _ habs2, herlen, hfull]
    · intro h
      exact absurd hfull (ne_of_lt h)

/-- Witness for C1: inserting a third key into a full two-entry cache
evicts exactly one entry and keeps the size at `max_size`. -/
theorem insertion_bounded_witness :
    ∃ c', addToCache
        (⟨[("default:a", ⟨1, 0, 1, "pa", 0⟩), ("default:b", ⟨2, 5, 1, "pb", 0⟩)],
          2, 300, 0, 0, 0, 0⟩ : Cache ℕ)
        "default:c" 3 10 "pc" none = some c' ∧
      c'.entries.length ≤ 2 ∧
      (2 = 2 → c'.entries.length = 2 ∧ c'.evictions = 0 + 1) ∧
      (2 < 2 → c'.entries.length = 2 + 1 ∧ c'.evictions = 0) := by
  exact insertion_bounded
    (⟨[("default:a", ⟨1, 0, 1, "pa", 0⟩), ("default:b", ⟨2, 5, 1, "pb", 0⟩)],
      2, 300, 0, 0, 0, 0⟩ : Cache ℕ)
    "default:c" 3 10 "pc" none (by decide) (by decide) (by decide) (by decide)

/-- Claim C2. In both caches, an entry whose age since last access is at
least `ttl_seconds` is never returned as a hit: `Get` behaves exactly as on
the cache with that entry already removed (and the eviction counter
bumped), so the miss counter increments, the hit counter does not move, and
the returned value is whatever the resolver produces.  An entry accessed
within `ttl_seconds` is returned as a hit with `last_accessed` and
`access_count` refreshed (hence a frequently used entry never expires). -/
theorem ttl_access_semantics {α β : Type} (c : Cache α) (d : Cache (List β))
    (key : String) (nowCheck nowAdd : ℚ) (load : Option α) (eload : List β)
    (path : String) (mtime : Option ℚ) :
    (∀ entry, alookup c.entries key = some entry →
      (c.ttl_seconds ≤ nowCheck - entry.last_accessed →
        getToolClass c key nowCheck nowAdd load path mtime =
          getToolClass { c with entries := eraseKey c.entries key,
                                evictions := c.evictions + 1 }
            key nowCheck nowAdd load path mtime ∧
        ∀ r, getToolClass c key nowCheck nowAdd load path mtime = some r →
          r.2.misses = c.misses + 1 ∧ r.2.hits = c.hits ∧ r.1 = load) ∧
      (nowCheck - entry.last_accessed < c.ttl_seconds →
        getToolClass c key nowCheck nowAdd load path mtime =
          some (some entry.value,
            { c with entries := aset c.entries key (refresh entry nowCheck),
                     hits := c.hits + 1 }))) ∧
    (∀ entry, alookup d.entries key = some entry →
      (d.ttl_seconds ≤ nowCheck - entry.last_accessed →
        getExtensions d key nowCheck nowAdd eload path mtime =
          getExtensions { d with entries := eraseKey d.entries key,
                                 evictions := d.evictions + 1 }
            key nowCheck nowAdd eload path mtime ∧
        ∀ r, getExtensions d key nowCheck nowAdd eload path mtime = some r →
          r.2.misses = d.misses + 1 ∧ r.2.hits = d.hits ∧ r.1 = eload) ∧
      (nowCheck - entry.last_accessed < d.ttl_seconds →
        getExtensions d key nowCheck nowAdd eload path mtime =
          some (entry.value,
            { d with entries := aset d.entries key (refresh entry nowCheck),
                     hits := d.hits + 1 }))) := by
  constructor
  · intro entry hlk
    constructor
    · intro hstale
      have hcond : ¬ (nowCheck - entry.last_accessed < c.ttl_seconds) :=
        not_lt.mpr hstale
      have heq1 : getToolClass c key nowCheck nowAdd load path mtime =
          toolMiss { c with entries := eraseKey c.entries key,
                            evictions := c.evictions + 1 }
            key nowAdd load path mtime := by
        simp [getToolClass, hlk, hcond]
      have heq2 : getToolClass
          { c with entries := eraseKey c.entries key, evictions := c.evictions + 1 }
          key nowCheck nowAdd load path mtime =
          toolMiss
            { c with entries := eraseKey c.entries key, evictions := c.evictions + 1 }
            key nowAdd load path mtime := by
        simp [getToolClass, alookup_eraseKey_self]
      refine ⟨heq1.trans heq2.symm, ?_⟩
      intro r hr
      rw [heq1] at hr
      rcases load with _ | v
      · simp only [toolMiss] at hr
        obtain rfl := Option.some_inj.mp hr
        exact ⟨rfl, rfl, rfl⟩
      · simp only [toolMiss] at hr
        split at hr
        · simp at hr
        · next c2 hadd =>
            obtain rfl := Option.some_inj.mp hr
            obtain ⟨hm, hh⟩ := addToCache_counters hadd
            exact ⟨hm, hh, rfl⟩
    · intro hfresh
      simp [getToolClass, hlk, hfresh]
  · intro entry hlk
    constructor
    · intro hstale
      have hcond : ¬ (nowCheck - entry.last_accessed < d.ttl_seconds) :=
        not_lt.mpr hstale
      have heq1 : getExtensions d key nowCheck nowAdd eload path mtime =
          extMiss { d with entries := eraseKey d.entries key,
                           evictions := d.evictions + 1 }
            key nowAdd eload path mtime := by
        simp [getExtensions, hlk, hcond]
      have heq2 : getExtensions
          { d with entries := eraseKey d.entries key, evictions := d.evictions + 1 }
          key nowCheck nowAdd eload path mtime =
          extMiss
            { d with entries := eraseKey d.entries key, evictions := d.evictions + 1 }
            key nowAdd eload path mtime := by
        simp [getExtensions, alookup_eraseKey_self]
      refine ⟨heq1.trans heq2.symm, ?_⟩
      intro r hr
      rw [heq1] at hr
      simp only [extMiss] at hr
      split at hr
      · obtain rfl := Option.some_inj.mp hr
        exact ⟨rfl, rfl, rfl⟩
      · split at hr
        · simp at hr
        · next c2 hadd =>
            obtain rfl := Option.some_inj.mp hr
            obtain ⟨hm, hh⟩ := addToCache_counters hadd
            exact ⟨hm, hh, rfl⟩
    · intro hfresh
      simp [getExtensions, hlk, hfresh]

/-- Witness for C2: in a concrete one-entry cache with `ttl = 300` and
`last_accessed = 0`, a lookup at time `300` (age exactly the TTL) behaves
as a miss on the erased cache, and a lookup at time `100` is a refreshed
hit. -/
theorem ttl_access_semantics_witness :
    (getToolClass (⟨[("default:t", ⟨7, 0, 1, "p", 0⟩)], 100, 300, 0, 0, 0, 0⟩ : Cache ℕ)
        "default:t" 300 300 (some 9) "p" none =
      getToolClass
        ⟨eraseKey [("default:t", (⟨7, 0, 1, "p", 0⟩ : CacheEntry ℕ))] "default:t",
          100, 300, 0, 0, 0 + 1, 0⟩
        "default:t" 300 300 (some 9) "p" none) ∧
    (getToolClass (⟨[("default:t", ⟨7, 0, 1, "p", 0⟩)], 100, 300, 0, 0, 0, 0⟩ : Cache ℕ)
        "default:t" 100 100 (some 9) "p" none =
      some (some 7,
        ⟨aset [("default:t", ⟨7, 0, 1, "p", 0⟩)] "default:t"
            (refresh ⟨7, 0, 1, "p", 0⟩ 100),
          100, 300, 0 + 1, 0, 0, 0⟩)) := by
  constructor
  · exact (((ttl_access_semantics (β := ℕ)
      (⟨[("default:t", ⟨7, 0, 1, "p", 0⟩)], 100, 300, 0, 0, 0, 0⟩ : Cache ℕ)
      (⟨[], 50, 300, 0, 0, 0, 0⟩ : Cache (List ℕ))
      "default:t" 300 300 (some 9) [] "p" none).1 ⟨7, 0, 1, "p", 0⟩
      (by decide)).1 (by norm_num)).1
  · exact ((ttl_access_semantics (β := ℕ)
      (⟨[("default:t", ⟨7, 0, 1, "p", 0⟩)], 100, 300, 0, 0, 0, 0⟩ : Cache ℕ)
      (⟨[], 50, 300, 0, 0, 0, 0⟩ : Cache (List ℕ))
      "default:t" 100 100 (some 9) [] "p" none).1 ⟨7, 0, 1, "p", 0⟩
      (by decide)).2 (by norm_num)

/-- Claim C3. When an insertion happens while the cache holds `max_size`
entries, the evicted entry is one whose `last_accessed` is the globally
smallest among all current entries (hence *the* least-recently-accessed
entry whenever timestamps are distinct), never an arbitrary one, and
exactly one entry is evicted (the erase removes precisely one binding and
the eviction counter increments once).  Shared by both caches'
`_add_to_cache`. -/
theorem eviction_lru {α : Type} (c : Cache α) (key : String) (v : α)
    (now : ℚ) (path : String) (mtime : Option ℚ)
    (hfull : c.entries.length = c.max_size) (hmax : 1 ≤ c.max_size)
    (_habs : alookup c.entries key = none)
    (hnd : (c.entries.map Prod.fst).Nodup) :
    ∃ pr ∈ c.entries,
      oldestKey c.entries = some pr.1 ∧
      (∀ q ∈ c.entries, pr.2.last_accessed ≤ q.2.last_accessed) ∧
      addToCache c key v now path mtime =
        some { c with
          entries := aset (eraseKey c.entries pr.1) key
            ⟨v, now, 1, path, mtime.getD now⟩,
          evictions := c.evictions + 1 } ∧
      (eraseKey c.entries pr.1).length + 1 = c.entries.length := by
  have hne : c.entries ≠ [] := by
    intro h0
    rw [h0] at hfull
    simp at hfull
    omega
  obtain ⟨pr, hpr, hok, hmin⟩ := oldestKey_spec c.entries hne
  refine ⟨pr, hpr, hok, hmin, ?_, ?_⟩
  · have hcond : c.max_size ≤ c.entries.length := hfull.ge
    simp [addToCache, hcond, hok]
  · exact eraseKey_length hnd (List.mem_map_of_mem _ hpr)

/-- Witness for C3: in a full two-entry cache where `default:b` has the
older `last_accessed`, inserting `default:c` evicts exactly the minimal
entry. -/
theorem eviction_lru_witness :
    ∃ pr ∈ [("default:a", (⟨1, 10, 1, "pa", 0⟩ : CacheEntry ℕ)),
            ("default:b", ⟨2, 5, 1, "pb", 0⟩)],
      oldestKey [("default:a", (⟨1, 10, 1, "pa", 0⟩ : CacheEntry ℕ)),
            ("default:b", ⟨2, 5, 1, "pb", 0⟩)] = some pr.1 ∧
      (∀ q ∈ [("default:a", (⟨1, 10, 1, "pa", 0⟩ : CacheEntry ℕ)),
            ("default:b", ⟨2, 5, 1, "pb", 0⟩)],
        pr.2.last_accessed ≤ q.2.last_accessed) ∧
      addToCache
        (⟨[("default:a", ⟨1, 10, 1, "pa", 0⟩), ("default:b", ⟨2, 5, 1, "pb", 0⟩)],
          2, 300, 0, 0, 0, 0⟩ : Cache ℕ)
        "default:c" 3 20 "pc" none =
        some ⟨aset
            (eraseKey [("default:a", ⟨1, 10, 1, "pa", 0⟩),
              ("default:b", ⟨2, 5, 1, "pb", 0⟩)] pr.1)
            "default:c" ⟨3, 20, 1, "pc", 20⟩,
          2, 300, 0, 0, 0 + 1, 0⟩ ∧
      (eraseKey [("default:a", (⟨1, 10, 1, "pa", 0⟩ : CacheEntry ℕ)),
            ("default:b", ⟨2, 5, 1, "pb", 0⟩)] pr.1).length + 1 = 2 := by
  exact eviction_lru
    (⟨[("default:a", ⟨1, 10, 1, "pa", 0⟩), ("default:b", ⟨2, 5, 1, "pb", 0⟩)],
      2, 300, 0, 0, 0, 0⟩ : Cache ℕ)
    "default:c" 3 20 "pc" none (by decide) (by decide) (by decide) (by decide)

/-- Claim C4. When the resolver fails (`_load_tool_class` yields `None` for
a missing or unloadable source), the cache `Get` returns not-found while
inserting nothing (only the miss counter moves — no negative caching) and
without raising, and `execute_tool` on such an unknown tool name returns
absent (`None`), increments the tool cache's miss counter, and never
raises: the outcome is the plain not-found report, with no exception
caught, no extension invoked, and no metrics entry appended. -/
theorem unknown_tool_absent {α β : Type} (env : ExecEnv α β) (tc : Cache α)
    (ec : Cache (List β)) (ithr ethr : List (String × ℚ))
    (log : List ToolExecutionMetrics)
    (hload : env.loadResult = none)
    (habs : alookup tc.entries (cacheKey env.profile env.toolName) = none) :
    getToolClass tc (cacheKey env.profile env.toolName) (env.clock 1)
        (env.clock 2) env.loadResult (toolFilePath env.profile env.toolName)
        env.toolMtime =
      some (none, { tc with misses := tc.misses + 1 }) ∧
    executeTool env tc ec ithr ethr log =
      { response := none, toolCache := { tc with misses := tc.misses + 1 },
        extCache := ec, interventionThrottle := ithr, extensionThrottle := ethr,
        metricsLog := log, extensionInvocations := 0,
        validationErrorLogged := false, executionErrorLogged := false,
        notFoundLogged := true } := by
  have hget : getToolClass tc (cacheKey env.profile env.toolName) (env.clock 1)
      (env.clock 2) env.loadResult (toolFilePath env.profile env.toolName)
      env.toolMtime = some (none, { tc with misses := tc.misses + 1 }) := by
    simp [getToolClass, habs, toolMiss, hload]
  exact ⟨hget, by simp [executeTool, hget]⟩

/-- Witness for C4: looking up the unknown tool `unk` on an empty cache
with a failing resolver returns absent and bumps only the miss counter. -/
theorem unknown_tool_absent_witness :
    getToolClass (⟨[], 100, 300, 0, 0, 0, 0⟩ : Cache ℕ) (cacheKey none "unk")
        0 0 none (toolFilePath none "unk") none =
      some (none, ⟨[], 100, 300, 0, 0 + 1, 0, 0⟩) ∧
    executeTool
        (⟨"agent", none, "unk", none, none, true, none, true, [], [], none,
          fun _ => 0⟩ : ExecEnv ℕ ℕ)
        ⟨[], 100, 300, 0, 0, 0, 0⟩ ⟨[], 50, 300, 0, 0, 0, 0⟩ [] [] [] =
      ⟨none, ⟨[], 100, 300, 0, 0 + 1, 0, 0⟩, ⟨[], 50, 300, 0, 0, 0, 0⟩,
        [], [], [], 0, false, false, true⟩ := by
  exact unknown_tool_absent
    (⟨"agent", none, "unk", none, none, true, none, true, [], [], none,
      fun _ => 0⟩ : ExecEnv ℕ ℕ)
    ⟨[], 100, 300, 0, 0, 0, 0⟩ ⟨[], 50, 300, 0, 0, 0, 0⟩ [] [] []
    rfl (by decide)

/-- Claim C5, amended. When the before-hook validation fails, the call
aborts with zero extension invocations and the failure is surfaced (the
validation error is logged by `before_execution` and the executor logs the
caught failure), but the call is *not* recorded in the metrics log: the
`ValueError` skips the `self._metrics.append(metrics)` line, so the
metrics log is returned unchanged. -/
theorem validation_failure_aborts {α β : Type} (env : ExecEnv α β)
    (tc : Cache α) (ec : Cache (List β)) (ithr ethr : List (String × ℚ))
    (log : List ToolExecutionMetrics) (v : α) (tc' : Cache α)
    (hval : env.validationOk = false)
    (hget : getToolClass tc (cacheKey env.profile env.toolName) (env.clock 1)
      (env.clock 2) env.loadResult (toolFilePath env.profile env.toolName)
      env.toolMtime = some (some v, tc')) :
    executeTool env tc ec ithr ethr log =
      { response := none, toolCache := tc', extCache := ec,
        interventionThrottle :=
          (handleIntervention ithr env.agentName env.toolName (env.clock 3)).2,
        extensionThrottle := ethr, metricsLog := log, extensionInvocations := 0,
        validationErrorLogged := true, executionErrorLogged := true,
        notFoundLogged := false } := by
  simp [executeTool, hget, hval]

/-- Witness for C5 (amended): a concrete failing-validation call returns
`None`, invokes no extension, logs the validation error, and leaves the
(empty) metrics log empty. -/
theorem validation_failure_aborts_witness :
    executeTool
        (⟨"agent", none, "vtool", some 2, none, false, none, true, [], [],
          none, fun _ => 0⟩ : ExecEnv ℕ ℕ)
        ⟨[], 100, 300, 0, 0, 0, 0⟩ ⟨[], 50, 300, 0, 0, 0, 0⟩ [] [] [] =
      ⟨none,
        ⟨[("default:vtool", ⟨2, 0, 1, "python/tools/vtool.py", 0⟩)],
          100, 300, 0, 1, 0, 1⟩,
        ⟨[], 50, 300, 0, 0, 0, 0⟩,
        (handleIntervention [] "agent" "vtool" 0).2, [], [], 0,
        true, true, false⟩ := by
  exact validation_failure_aborts
    (⟨"agent", none, "vtool", some 2, none, false, none, true, [], [],
      none, fun _ => 0⟩ : ExecEnv ℕ ℕ)
    ⟨[], 100, 300, 0, 0, 0, 0⟩ ⟨[], 50, 300, 0, 0, 0, 0⟩ [] [] [] 2
    ⟨[("default:vtool", ⟨2, 0, 1, "python/tools/vtool.py", 0⟩)],
      100, 300, 0, 1, 0, 1⟩
    rfl (by decide)

/-- Counterexample for C5 as stated: on this concrete failing-validation
call the validation error is logged and zero extensions run, yet the
metrics log comes back empty — the failed call is silently dropped from
metrics, not recorded as failed. -/
theorem validation_failure_not_recorded :
    (executeTool
        (⟨"agent", none, "t", some 1, none, false, none, true, [], [],
          none, fun _ => 0⟩ : ExecEnv ℕ ℕ)
        ⟨[], 100, 300, 0, 0, 0, 0⟩ ⟨[], 50, 300, 0, 0, 0, 0⟩ [] [] []).validationErrorLogged
      = true ∧
    (executeTool
        (⟨"agent", none, "t", some 1, none, false, none, true, [], [],
          none, fun _ => 0⟩ : ExecEnv ℕ ℕ)
        ⟨[], 100, 300, 0, 0, 0, 0⟩ ⟨[], 50, 300, 0, 0, 0, 0⟩ [] [] []).extensionInvocations
      = 0 ∧
    (executeTool
        (⟨"agent", none, "t", some 1, none, false, none, true, [], [],
          none, fun _ => 0⟩ : ExecEnv ℕ ℕ)
        ⟨[], 100, 300, 0, 0, 0, 0⟩ ⟨[], 50, 300, 0, 0, 0, 0⟩ [] [] []).metricsLog
      = [] := by
  decide

/-- Claim C6, the code evaluated at the failing input. A call whose tool class
is freshly loaded on a miss (the key starts absent and the miss counter
increments) still records `cache_hit = true` in its appended metrics
entry: `execute_tool` sets `metrics.cache_hit = True` unconditionally once
a class is resolved, so the recorded boolean is not "served from cache
without invoking the resolver". -/
theorem cache_hit_misreported :
    alookup (([] : List (String × CacheEntry ℕ))) "default:t" = none ∧
    (executeTool
        (⟨"agent", none, "t", some 1, none, true, some ⟨"ok", false⟩, true,
          [], [], none, fun _ => 0⟩ : ExecEnv ℕ ℕ)
        ⟨[], 100, 300, 0, 0, 0, 0⟩ ⟨[], 50, 300, 0, 0, 0, 0⟩ [] [] []).toolCache.misses
      = 1 ∧
    ((executeTool
        (⟨"agent", none, "t", some 1, none, true, some ⟨"ok", false⟩, true,
          [], [], none, fun _ => 0⟩ : ExecEnv ℕ ℕ)
        ⟨[], 100, 300, 0, 0, 0, 0⟩ ⟨[], 50, 300, 0, 0, 0, 0⟩ [] [] []).metricsLog.map
      (fun m => m.cache_hit)) = [true] := by
  decide

/-- Claim C7. Per `(agent, key)` pair, two throttled side-effect calls
within the window make the second a complete no-op, while two calls spaced
at or beyond the window both execute.  For the pause gate
(`_handle_intervention_optimized`, 100 ms window) the skipped call leaves
the throttle map untouched; for an extension point
(`_call_extensions_optimized`, 50 ms window) the skipped call returns
without running any extension of the batch and without touching the
throttle map or the extension cache — skipped, not delayed and retried. -/
theorem throttle_window_semantics {β : Type} (thrI thrE : List (String × ℚ))
    (agent tname point : String) (profile : Option String) (t1 t2 u1 u2 : ℚ)
    (uc ua uc2 ua2 : ℚ) (ec : Cache (List β)) (load load2 : List β)
    (mtime mtime2 : Option ℚ)
    (hI : alookup thrI (agent ++ ":" ++ tname) = none)
    (hE : alookup thrE (agent ++ ":" ++ point) = none) :
    (handleIntervention thrI agent tname t1 =
      (true, aset thrI (agent ++ ":" ++ tname) t1)) ∧
    (t2 - t1 < 1/10 →
      handleIntervention (aset thrI (agent ++ ":" ++ tname) t1) agent tname t2 =
        (false, aset thrI (agent ++ ":" ++ tname) t1)) ∧
    (1/10 ≤ t2 - t1 →
      handleIntervention (aset thrI (agent ++ ":" ++ tname) t1) agent tname t2 =
        (true, aset (aset thrI (agent ++ ":" ++ tname) t1)
          (agent ++ ":" ++ tname) t2)) ∧
    (∀ r1, callExtensions thrE agent point profile u1 uc ua ec load mtime =
        some r1 →
      r1.ran = true ∧ r1.throttle = aset thrE (agent ++ ":" ++ point) u1 ∧
      (u2 - u1 < 1/20 →
        callExtensions r1.throttle agent point profile u2 uc2 ua2 r1.cache
          load2 mtime2 = some ⟨false, [], r1.throttle, r1.cache⟩) ∧
      (1/20 ≤ u2 - u1 →
        ∀ r2, callExtensions r1.throttle agent point profile u2 uc2 ua2
            r1.cache load2 mtime2 = some r2 → r2.ran = true)) := by
  refine ⟨?_, ?_, ?_, ?_⟩
  · simp [handleIntervention, hI]
  · intro hin
    simp only [handleIntervention, alookup_aset_self]
    rw [if_pos hin]
  · intro hout
    simp only [handleIntervention, alookup_aset_self]
    rw [if_neg (not_lt.mpr hout)]
  · intro r1 hr1
    simp only [callExtensions, hE] at hr1
    split at hr1
    · simp at hr1
    · next classes ec1 hget =>
        obtain rfl := Option.some_inj.mp hr1
        refine ⟨rfl, rfl, ?_, ?_⟩
        · intro hin
          simp only [callExtensions, alookup_aset_self]
          rw [if_pos hin]
        · intro hout r2 hr2
          simp only [callExtensions, alookup_aset_self] at hr2
          rw [if_neg (not_lt.mpr hout)] at hr2
          split at hr2
          · simp at hr2
          · next classes2 ec2 hget2 =>
              obtain rfl := Option.some_inj.mp hr2
              rfl

/-- Witness for C7: concrete gate checks at `0`, `1/20` and `1/5` seconds
and a concrete extension batch throttled at `1/40` seconds. -/
theorem throttle_window_semantics_witness :
    (handleIntervention [] "a" "t" 0 = (true, [("a:t", 0)])) ∧
    (handleIntervention [("a:t", 0)] "a" "t" (1/20) = (false, [("a:t", 0)])) ∧
    (handleIntervention [("a:t", 0)] "a" "t" (1/5) = (true, [("a:t", 1/5)])) ∧
    (callExtensions [("a:p", 0)] "a" "p" none (1/40) 0 0
        (⟨[("default:p", ⟨[5], 0, 1, "python/extensions/p", 0⟩)],
          50, 300, 0, 1, 0, 1⟩ : Cache (List ℕ)) [5] none =
      some ⟨false, [],  [("a:p", 0)],
        ⟨[("default:p", ⟨[5], 0, 1, "python/extensions/p", 0⟩)],
          50, 300, 0, 1, 0, 1⟩⟩) := by
  have h := throttle_window_semantics (β := ℕ) [] [] "a" "t" "p" none 0 (1/20)
    0 (1/40) 0 0 0 0 (⟨[], 50, 300, 0, 0, 0, 0⟩ : Cache (List ℕ)) [5] [5]
    none none (by decide) (by decide)
  have h2 := throttle_window_semantics (β := ℕ) [] [] "a" "t" "p" none 0 (1/5)
    0 (1/40) 0 0 0 0 (⟨[], 50, 300, 0, 0, 0, 0⟩ : Cache (List ℕ)) [5] [5]
    none none (by decide) (by decide)
  refine ⟨h.1, h.2.1 (by norm_num), h2.2.2.1 (by norm_num), ?_⟩
  have h3 := (h.2.2.2
    ⟨true, [5], [("a:p", 0)],
      ⟨[("default:p", ⟨[5], 0, 1, "python/extensions/p", 0⟩)],
        50, 300, 0, 1, 0, 1⟩⟩ (by decide)).2.2.1 (by norm_num)
  exact h3

theorem firstSubclass_eq_head (l : List PyClass) :
    firstSubclass l =
      ((l.filter fun c => !c.isBase && c.subclassOfBase).head?).toList := by
  induction l with
  | nil => rfl
  | cons c rest ih =>
    by_cases h : c.isBase = false ∧ c.subclassOfBase = true
    · have hb : (!c.isBase && c.subclassOfBase) = true := by
        rcases h with ⟨h1, h2⟩
        simp [h1, h2]

      simp [firstSubclass, h, List.filter_cons, hb]
    · have hb : (!c.isBase && c.subclassOfBase) = false := by
        cases hcb : c.isBase <;> cases hcs : c.subclassOfBase <;> simp_all
      simp [firstSubclass, h, List.filter_cons, hb, ih]

/-- Claim C8 counterexample. In a source file whose (alphabetically sorted)
class members are `A` and `B`, both proper subclasses of the capability
base, the first class satisfying the marker is `A` (first conjunct), yet
`load_classes_from_file` selects `B` (second conjunct) because it scans
the member list in reverse — so the claim "the first class that satisfies
the required capability marker wins" is false on the code. -/
theorem first_match_does_not_win :
    firstSubclass [⟨"A", false, true⟩, ⟨"B", false, true⟩] =
      [⟨"A", false, true⟩] ∧
    loadClassesFromFile (some [⟨"A", false, true⟩, ⟨"B", false, true⟩]) =
      [⟨"B", false, true⟩] ∧
    (⟨"B", false, true⟩ : PyClass) ≠ ⟨"A", false, true⟩ := by
  decide

/-- Claim C8, amended. For every `(name, profile)` resolution the resolver
checks the profile-scoped source location first when a (truthy) profile is
given and falls back to the shared/default location otherwise or on miss;
within the matching source file the class selected is the *last* class in
the alphabetically sorted member enumeration that satisfies the required
capability marker (the first match of the reversed scan), with the other
matching classes in that file ignored. -/
theorem resolver_order (p : String) (profileMod defaultMod : Option (List PyClass))
    (hp : p ≠ "") :
    (∀ c rest, loadClassesFromFile profileMod = c :: rest →
      loadToolClass (some p) profileMod defaultMod = some c) ∧
    (loadClassesFromFile profileMod = [] →
      loadToolClass (some p) profileMod defaultMod =
        (loadClassesFromFile defaultMod).head?) ∧
    (loadToolClass none profileMod defaultMod =
      (loadClassesFromFile defaultMod).head?) ∧
    (∀ ms, loadClassesFromFile (some ms) =
      ((ms.filter fun c => !c.isBase && c.subclassOfBase).getLast?).toList) := by
  refine ⟨?_, ?_, ?_, ?_⟩
  · intro c rest h
    simp [loadToolClass, hp, h]
  · intro h
    simp only [loadToolClass, hp, if_neg, h]
    cases loadClassesFromFile defaultMod <;> rfl
  · simp only [loadToolClass]
    cases loadClassesFromFile defaultMod <;> rfl
  · intro ms
    show firstSubclass ms.reverse = _
    rw [firstSubclass_eq_head, List.filter_reverse, List.head?_reverse]

/-- Witness for C8 (amended): with profile `dev`, a profile file whose
only proper subclass is `X` wins over the default location, and in a file
with two matching classes `A`, `B` the alphabetically last one is
selected. -/
theorem resolver_order_witness :
    loadToolClass (some "dev")
        (some [⟨"T", true, true⟩, ⟨"X", false, true⟩]) none =
      some ⟨"X", false, true⟩ ∧
    loadClassesFromFile (some [⟨"A", false, true⟩, ⟨"C", false, true⟩]) =
      [⟨"C", false, true⟩] := by
  have h := resolver_order "dev" (some [⟨"T", true, true⟩, ⟨"X", false, true⟩])
    none (by decide)
  refine ⟨h.1 ⟨"X", false, true⟩ [] (by decide), ?_⟩
  exact (h.2.2.2 [⟨"A", false, true⟩, ⟨"C", false, true⟩]).trans (by decide)

/-- Claim C9. The operation `get_performance_stats` reports "no data" exactly when the
metrics log is empty: the empty log takes the early-return branch before
any average or ratio is computed, and a non-empty log never produces the
no-data report. -/
theorem empty_log_no_data (ms : List ToolExecutionMetrics) :
    getPerformanceStats ms = PerfStats.noData ↔ ms = [] := by
  cases ms with
  | nil => simp [getPerformanceStats]
  | cons m rest => simp [getPerformanceStats]

/-- Claim C10. At the TTL boundary the two expiry paths disagree by one
instant: an entry whose age since last access is exactly `ttl_seconds` is
treated as expired by `Get` (freshness requires age strictly less than the
TTL, so the entry is deleted and the call continues on the miss path),
while the `cleanup_expired` sweep at the same instant retains that entry
(it removes only entries whose age strictly exceeds the TTL; the sweep is
the same code in both caches). -/
theorem ttl_boundary_disagreement {α : Type} (c : Cache α) (key : String)
    (entry : CacheEntry α) (now nowAdd : ℚ) (load : Option α) (path : String)
    (mtime : Option ℚ)
    (hlk : alookup c.entries key = some entry)
    (hb : now - entry.last_accessed = c.ttl_seconds) :
    getToolClass c key now nowAdd load path mtime =
      toolMiss { c with entries := eraseKey c.entries key,
                        evictions := c.evictions + 1 }
        key nowAdd load path mtime ∧
    (key, entry) ∈ (cleanupExpired c now).entries := by
  constructor
  · have hcond : ¬ (now - entry.last_accessed < c.ttl_seconds) := by
      rw [hb]
      exact lt_irrefl _
    simp [getToolClass, hlk, hcond]
  · have hmem : (key, entry) ∈ c.entries := alookup_some_mem hlk
    show (key, entry) ∈ c.entries.filter _
    refine List.mem_filter.mpr ⟨hmem, ?_⟩
    simp [hb]

/-- Witness for C10: with `ttl = 300`, an entry last accessed at `0` and
looked up at exactly `300` goes down the miss path of `Get`, yet survives
`cleanup_expired` run at the same instant. -/
theorem ttl_boundary_disagreement_witness :
    getToolClass (⟨[("default:u", ⟨8, 0, 1, "q", 0⟩)], 100, 300, 0, 0, 0, 0⟩ : Cache ℕ)
        "default:u" 300 300 none "q" none =
      toolMiss
        ⟨eraseKey [("default:u", (⟨8, 0, 1, "q", 0⟩ : CacheEntry ℕ))] "default:u",
          100, 300, 0, 0, 0 + 1, 0⟩
        "default:u" 300 none "q" none ∧
    ("default:u", (⟨8, 0, 1, "q", 0⟩ : CacheEntry ℕ)) ∈
      (cleanupExpired
        (⟨[("default:u", ⟨8, 0, 1, "q", 0⟩)], 100, 300, 0, 0, 0, 0⟩ : Cache ℕ)
        300).entries := by
  exact ttl_boundary_disagreement
    (⟨[("default:u", ⟨8, 0, 1, "q", 0⟩)], 100, 300, 0, 0, 0, 0⟩ : Cache ℕ)
    "default:u" ⟨8, 0, 1, "q", 0⟩ 300 300 none "q" none (by decide) (by norm_num)

end AgentZero
